import Mathlib

/-!
# Homelab K3s Aggregator — verification of the in-memory registry

A shallow embedding of `aggregator/main.py`: the in-memory registry
(`nodes_data`, `connections_data`, `quote_cache`) and the operations the
specification describes — ingestion with replacement detection
(`receive_node_data`), staleness buckets and age formatting
(`get_all_nodes`), the eviction pass (`_cleanup_stale_nodes`), the
connection view's dedup and cap (`get_all_connections`), the metrics
fingerprint (`_compute_metrics_hash`), the quote cache (`get_node_quote`),
stats (`get_cluster_stats`) and forced removal (`remove_node`).

Numbers (Python floats: timestamps, latencies, percentages, coordinates)
are modelled as rationals `ℚ`; Python `int(x)` truncation toward zero is
`pyInt`.  Python dictionaries are association lists with string keys
(`Dict`), looked up with `List.lookup`; Python truthiness of optional
values (`None`, `0.0` and `""` are falsy) is modelled by the `truthy*`
functions.
-/

namespace HomelabMap

/-- Python `int(x)` applied to a float: truncation toward zero. -/
def pyInt (q : ℚ) : ℤ := if 0 ≤ q then ⌊q⌋ else ⌈q⌉

/-- Python truthiness of an optional number: `None` and `0.0` are falsy. -/
def truthyQ : Option ℚ → Bool
  | none => false
  | some x => decide (x ≠ 0)

/-- Python truthiness of an optional string: `None` and `""` are falsy. -/
def truthyS : Option String → Bool
  | none => false
  | some s => decide (s ≠ "")

/-- Python truthiness of a (present) string: `""` is falsy. -/
def truthyStr (s : String) : Bool := decide (s ≠ "")

/-- Python truthiness of an optional list: `None` and `[]` are falsy. -/
def truthyL {α : Type} : Option (List α) → Bool
  | none => false
  | some l => !l.isEmpty

/-- Code-point lexicographic comparison of character lists, as Python
compares strings. -/
def listStrLt : List Char → List Char → Bool
  | [], [] => false
  | [], _ :: _ => true
  | _ :: _, [] => false
  | a :: as, b :: bs =>
    if a.toNat < b.toNat then true
    else if b.toNat < a.toNat then false
    else listStrLt as bs

/-- Python `a < b` on strings (code-point lexicographic). -/
def strLtb (a b : String) : Bool := listStrLt a.data b.data

/-- Python `tuple(sorted([a, b]))` for two strings. -/
def pairKey (a b : String) : String × String :=
  if strLtb b a then (b, a) else (a, b)

/-! ## Python dictionaries as association lists -/

/-- A Python dict with string keys: an association list, first match wins. -/
abbrev Dict (α : Type) : Type := List (String × α)

/-- `del d[k]` / `d.pop(k, None)`: remove the binding for `k`. -/
def eraseKey {α : Type} (k : String) (d : Dict α) : Dict α :=
  d.filter (fun p => !(p.1 == k))

/-- `d[k] = v`: overwrite in place if present, else append (dicts keep
insertion order). -/
def insertKey {α : Type} (k : String) (v : α) (d : Dict α) : Dict α :=
  if (List.lookup k d).isSome then
    d.map (fun p => if p.1 == k then (k, v) else p)
  else
    d ++ [(k, v)]

/-- Python dicts never hold two bindings for one key. -/
def keysNodup {α : Type} (d : Dict α) : Prop := (d.map Prod.fst).Nodup

/-! ## Data model (from `main.py`) -/

/-- `Connection`: one Link Sample reported by a source about a target. -/
structure Connection where
  target_node : String
  target_ip : String
  latency_ms : ℚ
  min_ms : Option ℚ := none
  max_ms : Option ℚ := none
  deriving Repr, DecidableEq

/-- `NodeData`: the validated ingestion payload (the fields this
development reasons about; the remaining telemetry fields of the Python
model behave exactly like the optional telemetry fields kept here). -/
structure NodeData where
  name : String
  hostname : String
  internal_ip : Option String := none
  external_ip : Option String := none
  kubelet_version : Option String := none
  lat : Option ℚ := none
  lon : Option ℚ := none
  location : Option String := none
  provider : Option String := none
  cpu_percent : Option ℚ := none
  memory_percent : Option ℚ := none
  disk_percent : Option ℚ := none
  network_tx_bytes_per_sec : Option ℚ := none
  network_rx_bytes_per_sec : Option ℚ := none
  uptime_seconds : Option ℚ := none
  cpu_temp_celsius : Option ℚ := none
  load_avg_1m : Option ℚ := none
  process_count : Option ℤ := none
  connections : Option (List Connection) := none
  timestamp : ℚ := 0
  deriving Repr, DecidableEq

/-- A stored Node Report: the ingested payload (its geolocation fields
possibly back-filled) plus the registry-assigned `received_at` stamp. -/
structure StoredNode where
  data : NodeData
  received_at : ℚ
  deriving Repr, DecidableEq

/-- `QuoteCache`: cached quote with metadata.  The Python code stores the
first 8 hex characters of the MD5 of a colon-separated rendering of the
bucketed metrics; rendering and digest are injective encodings of the
bucket tuple, so the fingerprint is modelled as the tuple itself
(`metricsKey` below). -/
structure QuoteCacheEntry where
  quote : String
  generated_at : ℚ
  metrics_hash : ℤ × ℤ × ℤ × ℤ × ℚ
  deriving Repr, DecidableEq

/-- The aggregator's whole mutable state: the three module-level dicts. -/
structure AggState where
  nodes_data : Dict StoredNode
  connections_data : Dict (List Connection)
  quote_cache : Dict QuoteCacheEntry
  deriving Repr, DecidableEq

/-! ## Ingestion (`receive_node_data`) -/

/-- Replacement detection of `receive_node_data`: any of the three
identity fields truthy on both sides and different. -/
def isReplacement (existing new : NodeData) : Bool :=
  (truthyS existing.internal_ip && truthyS new.internal_ip
      && !(existing.internal_ip == new.internal_ip))
  || (truthyStr existing.hostname && truthyStr new.hostname
      && !(existing.hostname == new.hostname))
  || (truthyS existing.kubelet_version && truthyS new.kubelet_version
      && !(existing.kubelet_version == new.kubelet_version))

/-- The geolocation back-fill applied on replacement: each of `lat`,
`lon`, `location` is taken from the prior report when the prior value is
truthy and the new one is not. -/
def backfillGeo (existing new : NodeData) : NodeData :=
  { new with
    lat := if truthyQ existing.lat && !truthyQ new.lat then existing.lat else new.lat
    lon := if truthyQ existing.lon && !truthyQ new.lon then existing.lon else new.lon
    location :=
      if truthyS existing.location && !truthyS new.location then existing.location
      else new.location }

/-- `POST /api/nodes` (`receive_node_data`): store the report under its
name with `received_at = now`, back-filling geolocation on a detected
replacement; replace the source's Link Sample list only when the payload
carries a non-empty one. -/
def receive_node_data (now : ℚ) (node : NodeData) (st : AggState) : AggState :=
  let node_rec : NodeData :=
    match List.lookup node.name st.nodes_data with
    | none => node
    | some existing =>
        if isReplacement existing.data node then backfillGeo existing.data node
        else node
  let st' : AggState :=
    { st with
      nodes_data :=
        insertKey node.name { data := node_rec, received_at := now } st.nodes_data }
  if truthyL node.connections then
    { st' with
      connections_data :=
        insertKey node.name (node.connections.getD []) st'.connections_data }
  else st'

/-! ## Staleness buckets and age formatting (`get_all_nodes`) -/

/-- The liveness bucket of `get_all_nodes`, as a function of the age
`time_diff = now - received_at`. -/
def nodeStatus (node_timeout : ℚ) (time_diff : ℚ) : String :=
  if time_diff < 60 then "online"
  else if time_diff < node_timeout then "warning"
  else "offline"

/-- The human-readable age string of `get_all_nodes`. -/
def lastSeen (time_diff : ℚ) : String :=
  if time_diff < 60 then toString (pyInt time_diff) ++ "s ago"
  else if time_diff < 3600 then toString (pyInt (time_diff / 60)) ++ "m ago"
  else toString (pyInt (time_diff / 3600)) ++ "h ago"

/-- The slice of a `NodeStatus` row that depends on recency. -/
structure NodeStatusView where
  name : String
  status : String
  last_seen : String
  last_seen_timestamp : ℚ
  deriving Repr, DecidableEq

/-- One row of the `GET /api/nodes` response for a stored node. -/
def statusEntry (now node_timeout : ℚ) (node_name : String) (rec : StoredNode) :
    NodeStatusView :=
  let time_diff := now - rec.received_at
  { name := rec.data.name
    status := nodeStatus node_timeout time_diff
    last_seen := lastSeen time_diff
    last_seen_timestamp := rec.received_at }

/-! ## Eviction (`_cleanup_stale_nodes`) -/

/-- The inner scan of the eviction pass: drop every sample targeting
`name` from every source's list, removing a source whose list becomes
empty. -/
def dropTargets (name : String) (conns : Dict (List Connection)) :
    Dict (List Connection) :=
  conns.filterMap (fun p =>
    let filtered := p.2.filter (fun c => !(c.target_node == name))
    if filtered.isEmpty then none else some (p.1, filtered))

/-- The body of the eviction loop for one stale node. -/
def evictOne (st : AggState) (name : String) : AggState :=
  { nodes_data := eraseKey name st.nodes_data
    connections_data := dropTargets name (eraseKey name st.connections_data)
    quote_cache := eraseKey name st.quote_cache }

/-- The names collected by the first loop of `_cleanup_stale_nodes`. -/
def staleNames (cutoff : ℚ) (nodes : Dict StoredNode) : List String :=
  (nodes.filter (fun p => decide (p.2.received_at < cutoff))).map Prod.fst

/-- `_cleanup_stale_nodes`: evict every node whose `received_at` is older
than `now - (node_timeout + grace)`. -/
def cleanup_stale_nodes (now node_timeout grace : ℚ) (st : AggState) : AggState :=
  let cutoff := now - (node_timeout + grace)
  (staleNames cutoff st.nodes_data).foldl evictOne st

/-! ## Connection view (`get_all_connections`) -/

/-- One element of the `all_connections` list built by
`get_all_connections`. -/
structure DerivedLink where
  source_node : String
  source_lat : Option ℚ := none
  source_lon : Option ℚ := none
  target_node : String
  target_lat : Option ℚ := none
  target_lon : Option ℚ := none
  latency_ms : ℚ
  min_ms : Option ℚ := none
  max_ms : Option ℚ := none
  deriving Repr, DecidableEq

/-- The dedup key of a derived link: the unordered endpoint pair. -/
def dedupKey (c : DerivedLink) : String × String :=
  pairKey c.source_node c.target_node

/-- Overwrite the value stored under `k`. -/
def updateVal (d : List ((String × String) × DerivedLink)) (k : String × String)
    (v : DerivedLink) : List ((String × String) × DerivedLink) :=
  d.map (fun p => if p.1 == k then (k, v) else p)

/-- One iteration of the dedup loop of `get_all_connections`: keep the
incumbent unless the new sample's latency is strictly lower. -/
def dedupStep (d : List ((String × String) × DerivedLink)) (c : DerivedLink) :
    List ((String × String) × DerivedLink) :=
  match List.lookup (dedupKey c) d with
  | none => d ++ [(dedupKey c, c)]
  | some e => if c.latency_ms < e.latency_ms then updateVal d (dedupKey c) c else d

/-- The `deduped` dict after the dedup loop. -/
def dedupFold (l : List DerivedLink) : List ((String × String) × DerivedLink) :=
  l.foldl dedupStep []

/-- `list(deduped.values())`: the deduplicated connection list. -/
def dedupConnections (l : List DerivedLink) : List DerivedLink :=
  (dedupFold l).map Prod.snd

/-- The comparison key of the capping sort. -/
def connLe (a b : DerivedLink) : Bool := decide (a.latency_ms ≤ b.latency_ms)

/-- The capping step of `get_all_connections`: when the list exceeds the
bound, sort ascending by latency and truncate. -/
def capConnections (max_connections : ℕ) (l : List DerivedLink) : List DerivedLink :=
  if 0 < max_connections ∧ max_connections < l.length then
    (l.mergeSort connLe).take max_connections
  else l

/-! ## Metrics fingerprint (`_compute_metrics_hash`) -/

/-- `int((node_data.get('cpu_percent') or 0) / 10) * 10`. -/
def cpuBucket (d : NodeData) : ℤ := pyInt ((d.cpu_percent.getD 0) / 10) * 10

/-- `int((node_data.get('memory_percent') or 0) / 10) * 10`. -/
def memBucket (d : NodeData) : ℤ := pyInt ((d.memory_percent.getD 0) / 10) * 10

/-- `int((node_data.get('uptime_seconds') or 0) / 86400)`. -/
def uptimeDaysBucket (d : NodeData) : ℤ := pyInt ((d.uptime_seconds.getD 0) / 86400)

/-- `int((node_data.get('cpu_temp_celsius') or 0) / 5) * 5`. -/
def tempBucket (d : NodeData) : ℤ := pyInt ((d.cpu_temp_celsius.getD 0) / 5) * 5

/-- `int((node_data.get('load_avg_1m') or 0) * 2) / 2`. -/
def loadBucket (d : NodeData) : ℚ := (pyInt ((d.load_avg_1m.getD 0) * 2) : ℚ) / 2

/-- `_compute_metrics_hash`: the bucket tuple rendered into the cache
key.  The Python code then formats it as `f"{cpu}:{mem}:{days}:{temp}:{load}"`
and keeps 8 hex chars of its MD5; both steps are injective encodings
(colon-free decimal components; digest collisions ignored), so the
fingerprint is modelled as the tuple. -/
def compute_metrics_hash (d : NodeData) : ℤ × ℤ × ℤ × ℤ × ℚ :=
  (cpuBucket d, memBucket d, uptimeDaysBucket d, tempBucket d, loadBucket d)

/-! ## Quote cache (`get_node_quote`) -/

/-- The response body of `POST /api/quote/{name}` (the fields the cache
contract speaks about). -/
structure QuoteResponse where
  node_name : String
  quote : String
  cached : Bool
  cache_age_seconds : Option ℤ := none
  deriving Repr, DecidableEq

/-- The cache logic of `get_node_quote` for a known node, after password
validation: `generated` stands for the text produced by the external
`_generate_quote` collaborator.  Returns the response together with the
updated `quote_cache`. -/
def get_node_quote (now ttl : ℚ) (force_new : Bool) (node_name : String)
    (node_data : NodeData) (cache : Dict QuoteCacheEntry) (generated : String) :
    QuoteResponse × Dict QuoteCacheEntry :=
  let metrics_hash := compute_metrics_hash node_data
  let hit : Option QuoteCacheEntry :=
    if force_new then none
    else
      match List.lookup node_name cache with
      | none => none
      | some c =>
          if now - c.generated_at < ttl ∧ c.metrics_hash = metrics_hash then some c
          else none
  match hit with
  | some c =>
      ({ node_name := node_name, quote := c.quote, cached := true
         cache_age_seconds := some (pyInt (now - c.generated_at)) }, cache)
  | none =>
      ({ node_name := node_name, quote := generated, cached := false },
       insertKey node_name
         { quote := generated, generated_at := now, metrics_hash := metrics_hash }
         cache)

/-! ## Stats (`get_cluster_stats`) and forced removal (`remove_node`) -/

/-- The counting fields of the `GET /api/stats` response. -/
structure ClusterStats where
  total_nodes : ℕ
  online_nodes : ℕ
  offline_nodes : ℤ
  total_connections : ℕ
  deriving Repr, DecidableEq

/-- `get_cluster_stats` (counts): `total_connections` is
`len(connections_data)`. -/
def get_cluster_stats (now node_timeout : ℚ) (st : AggState) : ClusterStats :=
  let online :=
    (st.nodes_data.filter (fun p => decide (now - p.2.received_at < node_timeout))).length
  { total_nodes := st.nodes_data.length
    online_nodes := online
    offline_nodes := (st.nodes_data.length : ℤ) - online
    total_connections := st.connections_data.length }

/-- The total number of Link Samples stored across all source nodes (what
claim C8 says `total_connections` reports). -/
def totalLinkSamples (st : AggState) : ℕ :=
  (st.connections_data.map (fun p => p.2.length)).sum

/-- `DELETE /api/nodes/{name}` (`remove_node`): 404 (`none`) when absent,
otherwise delete only the `nodes_data` entry. -/
def remove_node (node_name : String) (st : AggState) : Option AggState :=
  if (List.lookup node_name st.nodes_data).isSome then
    some { st with nodes_data := eraseKey node_name st.nodes_data }
  else none

/-! ## Boundary validation (`NodeData` as a pydantic model) -/

/-- A raw ingestion payload before pydantic validation: every field may be
absent.  Only the fields relevant to validation are distinguished; the
required fields of the Python model are exactly `name` and `hostname`
(plain `str`, no non-emptiness constraint), everything else is `Optional`
or has a default. -/
structure RawPayload where
  name : Option String := none
  hostname : Option String := none
  internal_ip : Option String := none
  kubelet_version : Option String := none
  lat : Option ℚ := none
  lon : Option ℚ := none
  location : Option String := none
  cpu_percent : Option ℚ := none
  connections : Option (List Connection) := none
  deriving Repr, DecidableEq

/-- Pydantic validation of the `NodeData` model: reject iff a required
field (`name`, `hostname`) is missing; no other constraint. -/
def validatePayload (p : RawPayload) : Option NodeData :=
  match p.name, p.hostname with
  | some n, some h =>
      some { name := n, hostname := h, internal_ip := p.internal_ip
             kubelet_version := p.kubelet_version, lat := p.lat, lon := p.lon
             location := p.location, cpu_percent := p.cpu_percent
             connections := p.connections }
  | _, _ => none

/-! ## Dictionary lemmas -/

theorem lookup_eraseKey_self {α : Type} (k : String) (d : Dict α) :
    List.lookup k (eraseKey k d) = none := by
  rw [List.lookup_eq_none_iff]
  intro p hp
  have := List.of_mem_filter hp
  simp only [Bool.not_eq_true', beq_eq_false_iff_ne, ne_eq] at this
  simp [bne_iff_ne, Ne.symm this]

theorem lookup_eraseKey_ne {α : Type} (d : Dict α) {n k : String} (h : n ≠ k) :
    List.lookup n (eraseKey k d) = List.lookup n d := by
  induction d with
  | nil => rfl
  | cons p t ih =>
    obtain ⟨a, b⟩ := p
    by_cases hk : a = k
    · subst hk
      have hna : (n == a) = false := by simp [h]
      simp [eraseKey, List.filter_cons, List.lookup_cons, hna] at ih ⊢
      exact ih
    · have : (a == k) = false := by simp [hk]
      by_cases hna : n = a
      · subst hna
        simp [eraseKey, List.filter_cons, this, List.lookup_cons]
      · have hna' : (n == a) = false := by simp [hna]
        simp [eraseKey, List.filter_cons, this, List.lookup_cons, hna'] at ih ⊢
        exact ih

theorem lookup_eraseKey_of_none {α : Type} {d : Dict α} {n : String} (k : String)
    (h : List.lookup n d = none) : List.lookup n (eraseKey k d) = none := by
  rw [List.lookup_eq_none_iff] at h ⊢
  intro p hp
  exact h p (List.mem_of_mem_filter hp)

theorem lookup_map_update_self {α : Type} {k : String} (v : α) {d : Dict α}
    (hs : (List.lookup k d).isSome) :
    List.lookup k (d.map (fun p => if p.1 == k then (k, v) else p)) = some v := by
  induction d with
  | nil => simp at hs
  | cons p t ih =>
    obtain ⟨a, b⟩ := p
    by_cases ha : a = k
    · subst ha
      simp [List.lookup_cons]
    · have h1 : (a == k) = false := by simp [ha]
      have h2 : (k == a) = false := by simp [Ne.symm ha]
      simp only [List.lookup_cons, h2] at hs
      simp only [List.map_cons, h1, Bool.false_eq_true, if_false, List.lookup_cons, h2]
      exact ih hs

theorem lookup_append_single_self {α : Type} {k : String} (v : α) {d : Dict α}
    (hn : List.lookup k d = none) :
    List.lookup k (d ++ [(k, v)]) = some v := by
  induction d with
  | nil => simp [List.lookup_cons]
  | cons p t ih =>
    obtain ⟨a, b⟩ := p
    by_cases ha : k = a
    · subst ha
      simp [List.lookup_cons] at hn
    · have h2 : (k == a) = false := by simp [ha]
      simp only [List.lookup_cons, h2] at hn
      simp only [List.cons_append, List.lookup_cons, h2]
      exact ih hn

theorem lookup_insertKey_self {α : Type} (k : String) (v : α) (d : Dict α) :
    List.lookup k (insertKey k v d) = some v := by
  unfold insertKey
  by_cases hs : (List.lookup k d).isSome
  · simpa [hs] using lookup_map_update_self v hs
  · have hn : List.lookup k d = none := by
      cases h : List.lookup k d
      · rfl
      · simp [h] at hs
    simpa [hs] using lookup_append_single_self v hn

theorem lookup_some_mem {α : Type} {d : Dict α} {k : String} {v : α}
    (h : List.lookup k d = some v) : (k, v) ∈ d := by
  induction d with
  | nil => simp [List.lookup] at h
  | cons p t ih =>
    obtain ⟨a, b⟩ := p
    by_cases ha : k = a
    · subst ha
      simp [List.lookup_cons] at h
      simp [h]
    · have h2 : (k == a) = false := by simp [ha]
      simp only [List.lookup_cons, h2] at h
      exact List.mem_cons_of_mem _ (ih h)

theorem lookup_of_mem_nodup {α : Type} {d : Dict α} (hn : keysNodup d) {k : String}
    {v : α} (h : (k, v) ∈ d) : List.lookup k d = some v := by
  induction d with
  | nil => simp at h
  | cons p t ih =>
    obtain ⟨a, b⟩ := p
    simp only [keysNodup, List.map_cons, List.nodup_cons] at hn
    rcases List.mem_cons.mp h with h1 | h1
    · injection h1 with h1a h1b
      subst h1a
      subst h1b
      simp [List.lookup_cons]
    · have hka : k ≠ a := by
        rintro rfl
        exact hn.1 (List.mem_map.mpr ⟨(k, v), h1, rfl⟩)
      have h2 : (k == a) = false := by simp [hka]
      simp only [List.lookup_cons, h2]
      exact ih hn.2 h1

/-! ## Ingestion lemmas -/

/-- Whatever the connections branch does, `receive_node_data` stores the
(possibly back-filled) report under the node's name with
`received_at = now`. -/
theorem receive_nodes_data_eq (now : ℚ) (node : NodeData) (st : AggState) :
    (receive_node_data now node st).nodes_data
      = insertKey node.name
          ⟨match List.lookup node.name st.nodes_data with
            | none => node
            | some existing =>
                if isReplacement existing.data node then backfillGeo existing.data node
                else node,
            now⟩ st.nodes_data := by
  unfold receive_node_data
  repeat' split
  all_goals rfl

/-- **C1.** For every ingestion whose name already has a stored Node
Report and whose identity comparison detects a replacement, the stored
record's geolocation fields are back-filled from the prior report exactly
where the new report's value is unset or zero/empty (Python-falsy) and
the prior's is set and non-zero/non-empty (Python-truthy); every other
field, telemetry included, comes from the new report, `received_at` is
stamped `now`, and the ingestion always stores a record (never rejects). -/
theorem c1_replacement_backfill (st : AggState) (now : ℚ) (node : NodeData)
    (prior : StoredNode)
    (hprev : List.lookup node.name st.nodes_data = some prior)
    (hrep : isReplacement prior.data node = true) :
    ∃ stored : StoredNode,
      List.lookup node.name (receive_node_data now node st).nodes_data = some stored ∧
      stored.received_at = now ∧
      stored.data.lat
        = (if truthyQ prior.data.lat && !truthyQ node.lat then prior.data.lat
           else node.lat) ∧
      stored.data.lon
        = (if truthyQ prior.data.lon && !truthyQ node.lon then prior.data.lon
           else node.lon) ∧
      stored.data.location
        = (if truthyS prior.data.location && !truthyS node.location then prior.data.location
           else node.location) ∧
      stored.data.internal_ip = node.internal_ip ∧
      stored.data.external_ip = node.external_ip ∧
      stored.data.hostname = node.hostname ∧
      stored.data.kubelet_version = node.kubelet_version ∧
      stored.data.provider = node.provider ∧
      stored.data.cpu_percent = node.cpu_percent ∧
      stored.data.memory_percent = node.memory_percent ∧
      stored.data.disk_percent = node.disk_percent ∧
      stored.data.network_tx_bytes_per_sec = node.network_tx_bytes_per_sec ∧
      stored.data.network_rx_bytes_per_sec = node.network_rx_bytes_per_sec ∧
      stored.data.uptime_seconds = node.uptime_seconds ∧
      stored.data.cpu_temp_celsius = node.cpu_temp_celsius ∧
      stored.data.load_avg_1m = node.load_avg_1m ∧
      stored.data.process_count = node.process_count ∧
      stored.data.timestamp = node.timestamp := by
  refine ⟨⟨backfillGeo prior.data node, now⟩, ?_, rfl, rfl, rfl, rfl, rfl, rfl, rfl,
    rfl, rfl, rfl, rfl, rfl, rfl, rfl, rfl, rfl, rfl, rfl, rfl⟩
  have hnd : (receive_node_data now node st).nodes_data
      = insertKey node.name ⟨backfillGeo prior.data node, now⟩ st.nodes_data := by
    rw [receive_nodes_data_eq, hprev]
    simp only [hrep, if_true]
  rw [hnd]
  exact lookup_insertKey_self ..

def c1Prior : StoredNode :=
  { data := { name := "node-1", hostname := "host-a", internal_ip := some "10.0.0.1"
              lat := some 37, lon := some (-122), location := some "SF" }
    received_at := 50 }

def c1New : NodeData :=
  { name := "node-1", hostname := "host-a", internal_ip := some "10.0.0.2"
    cpu_percent := some 42 }

def c1State : AggState :=
  { nodes_data := [("node-1", c1Prior)], connections_data := [], quote_cache := [] }

/-- **C1, witness.** A changed internal address with no new coordinates:
the stored record keeps the prior coordinates and the new address. -/
theorem c1_replacement_backfill_witness :
    ∃ stored : StoredNode,
      List.lookup c1New.name (receive_node_data 100 c1New c1State).nodes_data
        = some stored ∧
      stored.received_at = 100 ∧ stored.data.lat = some 37 ∧
      stored.data.internal_ip = some "10.0.0.2" ∧ stored.data.cpu_percent = some 42 := by
  obtain ⟨stored, h1, h2, hlat, hlon, hloc, hip, hrest⟩ :=
    c1_replacement_backfill c1State 100 c1New c1Prior (by decide) (by decide)
  refine ⟨stored, h1, h2, ?_, ?_, ?_⟩
  · rw [hlat]; decide
  · rw [hip]; decide
  · rw [hrest.2.2.2.2.1]; decide

def c1CexPrior : StoredNode :=
  { data := { name := "node-1", hostname := "host-a", internal_ip := some "10.0.0.1"
              lat := some 5, lon := some 6 }
    received_at := 50 }

def c1CexState : AggState :=
  { nodes_data := [("node-1", c1CexPrior)], connections_data := [], quote_cache := [] }

def c1CexNew : NodeData :=
  { name := "node-1", hostname := "host-a", internal_ip := some "10.0.0.2"
    lat := some 0 }

/-- **C1, counterexample to the claim as stated.** The new report *sets*
latitude (to `0`, the equator), yet the stored record takes the prior
latitude `5`: the code back-fills on Python falsiness, not on absence, so
a field the new report did set does not always come from the new
report. -/
theorem c1_replacement_backfill_cex :
    isReplacement c1CexPrior.data c1CexNew = true ∧
    c1CexNew.lat = some 0 ∧
    (List.lookup "node-1" (receive_node_data 100 c1CexNew c1CexState).nodes_data).map
        (fun r => r.data.lat)
      = some (some 5) := by decide

/-! ## C2: liveness buckets and age formatting -/

/-- **C2.** The liveness bucket and the age string emitted by
`get_all_nodes` are the claimed pure functions of
`age = now - received_at` (given a timeout of at least the 60-second
online window, as in the 120-second default): `online` below 60s,
`warning` up to the timeout, `offline` from the timeout on; ages format
as truncated seconds, minutes, hours — with the claim's three examples
evaluated. -/
theorem c2_liveness_buckets (now node_timeout : ℚ) (node_name : String)
    (rec : StoredNode) (ht : 60 ≤ node_timeout) :
    ((now - rec.received_at < 60 →
        (statusEntry now node_timeout node_name rec).status = "online") ∧
     (60 ≤ now - rec.received_at → now - rec.received_at < node_timeout →
        (statusEntry now node_timeout node_name rec).status = "warning") ∧
     (node_timeout ≤ now - rec.received_at →
        (statusEntry now node_timeout node_name rec).status = "offline")) ∧
    ((now - rec.received_at < 60 →
        (statusEntry now node_timeout node_name rec).last_seen
          = toString (pyInt (now - rec.received_at)) ++ "s ago") ∧
     (60 ≤ now - rec.received_at → now - rec.received_at < 3600 →
        (statusEntry now node_timeout node_name rec).last_seen
          = toString (pyInt ((now - rec.received_at) / 60)) ++ "m ago") ∧
     (3600 ≤ now - rec.received_at →
        (statusEntry now node_timeout node_name rec).last_seen
          = toString (pyInt ((now - rec.received_at) / 3600)) ++ "h ago")) ∧
    (nodeStatus 120 30 = "online" ∧ lastSeen 30 = "30s ago" ∧
     nodeStatus 120 90 = "warning" ∧ lastSeen 90 = "1m ago" ∧
     nodeStatus 120 3600 = "offline" ∧ lastSeen 3600 = "1h ago") := by
  refine ⟨⟨fun h => ?_, fun h1 h2 => ?_, fun h => ?_⟩,
          ⟨fun h => ?_, fun h1 h2 => ?_, fun h => ?_⟩, ?_, ?_, ?_, ?_, ?_, ?_⟩
  · simp [statusEntry, nodeStatus, if_pos h]
  · simp [statusEntry, nodeStatus, if_neg (not_lt.mpr h1), if_pos h2]
  · have h60 : ¬ now - rec.received_at < 60 := not_lt.mpr (le_trans ht h)
    simp [statusEntry, nodeStatus, if_neg h60, if_neg (not_lt.mpr h)]
  · simp [statusEntry, lastSeen, if_pos h]
  · simp [statusEntry, lastSeen, if_neg (not_lt.mpr h1), if_pos h2]
  · have h60 : ¬ now - rec.received_at < 60 := by linarith
    have h3600 : ¬ now - rec.received_at < 3600 := not_lt.mpr h
    simp [statusEntry, lastSeen, if_neg h60, if_neg h3600]
  · norm_num [nodeStatus]
  · rw [lastSeen, if_pos (by norm_num : (30:ℚ) < 60),
      show pyInt 30 = 30 by norm_num [pyInt]]
    rfl
  · norm_num [nodeStatus]
  · rw [lastSeen, if_neg (by norm_num : ¬ (90:ℚ) < 60),
      if_pos (by norm_num : (90:ℚ) < 3600),
      show pyInt ((90:ℚ) / 60) = 1 by norm_num [pyInt]]
    rfl
  · norm_num [nodeStatus]
  · rw [lastSeen, if_neg (by norm_num : ¬ (3600:ℚ) < 60),
      if_neg (by norm_num : ¬ (3600:ℚ) < 3600),
      show pyInt ((3600:ℚ) / 3600) = 1 by norm_num [pyInt]]
    rfl

def c2Rec : StoredNode := { data := { name := "n", hostname := "h" }, received_at := 0 }

/-- **C2, witness.** At age 30 with the default 120s timeout the bucket
is `online`. -/
theorem c2_liveness_buckets_witness :
    (statusEntry 30 120 "n" c2Rec).status = "online" ∧
    (statusEntry 30 120 "n" c2Rec).last_seen = "30s ago" := by
  have h := c2_liveness_buckets 30 120 "n" c2Rec (by norm_num)
  have hage : (30:ℚ) - c2Rec.received_at = 30 := by norm_num [c2Rec]
  refine ⟨h.1.1 (by rw [hage]; norm_num), ?_⟩
  rw [h.2.1.1 (by rw [hage]; norm_num), hage,
    show pyInt 30 = 30 by norm_num [pyInt]]
  rfl

/-! ## C9: boundary validation -/

/-- **C9 (amended).** Pydantic validation of the ingestion payload
accepts exactly the payloads carrying the two required fields `name` and
`hostname` — an empty `name` string included — and every validated
payload is stored, never rejected. -/
theorem c9_validation_boundary (p : RawPayload) :
    ((validatePayload p).isSome ↔ p.name.isSome ∧ p.hostname.isSome) ∧
    ∀ nd : NodeData, ∀ now : ℚ, ∀ st : AggState,
      ∃ stored : StoredNode,
        List.lookup nd.name (receive_node_data now nd st).nodes_data = some stored ∧
        stored.received_at = now := by
  constructor
  · unfold validatePayload
    cases hn : p.name <;> cases hh : p.hostname <;> simp
  · intro nd now st
    exact ⟨_, receive_nodes_data_eq now nd st ▸ lookup_insertKey_self .., rfl⟩

def c9Ok : RawPayload := { name := some "node-1", hostname := some "h" }

def c9Node : NodeData := { name := "node-1", hostname := "h" }

/-- **C9, witness.** A payload with both required fields validates, and
its report is stored with the server stamp. -/
theorem c9_validation_boundary_witness :
    (validatePayload c9Ok).isSome ∧
    ∃ stored : StoredNode,
      List.lookup "node-1" (receive_node_data 7 c9Node ⟨[], [], []⟩).nodes_data
        = some stored ∧ stored.received_at = 7 := by
  have h := c9_validation_boundary c9Ok
  refine ⟨h.1.mpr (by decide), ?_⟩
  have h2 := h.2 c9Node 7 ⟨[], [], []⟩
  simpa [c9Node] using h2

def c9Empty : RawPayload := { name := some "", hostname := some "h" }

def c9EmptyNode : NodeData := { name := "", hostname := "h" }

def c9NoHost : RawPayload := { name := some "node-1" }

/-- **C9, counterexample to the claim as stated.** A report whose name is
the empty string passes validation and is stored under the empty key —
ingestion does not reject empty names — while omitting `hostname` (a
field other than the name) is rejected. -/
theorem c9_validation_boundary_cex :
    validatePayload c9Empty = some c9EmptyNode ∧
    (List.lookup "" (receive_node_data 5 c9EmptyNode ⟨[], [], []⟩).nodes_data).isSome
      = true ∧
    validatePayload c9NoHost = none := by decide

/-! ## C10: forced removal does not cascade -/

/-- **C10.** `DELETE /api/nodes/{name}` on a stored node removes only the
Node Report: the connection store (the node's own Link Sample list and
every sample targeting it) and the quote cache are left entirely
unchanged, as are all other nodes' reports. -/
theorem c10_remove_node_no_cascade (st : AggState) (node_name : String)
    (rec : StoredNode) (h : List.lookup node_name st.nodes_data = some rec) :
    ∃ st' : AggState, remove_node node_name st = some st' ∧
      List.lookup node_name st'.nodes_data = none ∧
      st'.connections_data = st.connections_data ∧
      st'.quote_cache = st.quote_cache ∧
      ∀ n : String, n ≠ node_name →
        List.lookup n st'.nodes_data = List.lookup n st.nodes_data := by
  refine ⟨{ st with nodes_data := eraseKey node_name st.nodes_data }, ?_,
    lookup_eraseKey_self .., rfl, rfl, fun n hn => lookup_eraseKey_ne _ hn⟩
  unfold remove_node
  simp [h]

def c10State : AggState :=
  { nodes_data := [("a", c2Rec), ("b", c2Rec)]
    connections_data := [("b", [{ target_node := "a", target_ip := "1.2.3.4"
                                  latency_ms := 3 }])]
    quote_cache := [("a", { quote := "q", generated_at := 0
                            metrics_hash := (0, 0, 0, 0, 0) })] }

/-- **C10, witness.** Deleting `"a"` leaves `"b"`'s sample targeting
`"a"` and `"a"`'s cached quote in place. -/
theorem c10_remove_node_no_cascade_witness :
    ∃ st' : AggState, remove_node "a" c10State = some st' ∧
      List.lookup "a" st'.nodes_data = none ∧
      st'.connections_data = c10State.connections_data ∧
      st'.quote_cache = c10State.quote_cache := by
  obtain ⟨st', h1, h2, h3, h4, h5⟩ :=
    c10_remove_node_no_cascade c10State "a" c2Rec (by decide)
  exact ⟨st', h1, h2, h3, h4⟩

/-! ## C6: metrics fingerprint -/

def c6a : NodeData :=
  { name := "n", hostname := "h", cpu_percent := some 51, memory_percent := some 71
    cpu_temp_celsius := some 41, load_avg_1m := some (11/10) }

def c6b : NodeData :=
  { name := "n", hostname := "h", cpu_percent := some 58, memory_percent := some 78
    cpu_temp_celsius := some 44, load_avg_1m := some (14/10) }

def c6c : NodeData := { name := "n", hostname := "h", cpu_percent := some 20 }

def c6d : NodeData := { name := "n", hostname := "h", cpu_percent := some 80 }

def c6none : NodeData := { name := "n", hostname := "h" }

/-- **C6 (amended).** Two telemetry maps produce the same fingerprint
exactly when their bucketed values agree, the buckets being CPU% and
memory% to the nearest 10, temperature to the nearest 5, uptime to whole
days and load to the nearest 0.5 — all via Python `int()` truncation
toward zero (which coincides with flooring on non-negative values) — with
absent fields treated as zero, so the computation is total; the spec's
two example pairs behave as claimed. -/
theorem c6_fingerprint_buckets (d₁ d₂ : NodeData) :
    (compute_metrics_hash d₁ = compute_metrics_hash d₂ ↔
      (cpuBucket d₁ = cpuBucket d₂ ∧ memBucket d₁ = memBucket d₂ ∧
       uptimeDaysBucket d₁ = uptimeDaysBucket d₂ ∧ tempBucket d₁ = tempBucket d₂ ∧
       loadBucket d₁ = loadBucket d₂)) ∧
    compute_metrics_hash c6a = compute_metrics_hash c6b ∧
    compute_metrics_hash c6c ≠ compute_metrics_hash c6d ∧
    compute_metrics_hash c6none = (0, 0, 0, 0, 0) := by
  refine ⟨?_, ?_, ?_, ?_⟩
  · simp only [compute_metrics_hash, Prod.mk.injEq]
  · norm_num [compute_metrics_hash, cpuBucket, memBucket, uptimeDaysBucket,
      tempBucket, loadBucket, pyInt, c6a, c6b]
  · norm_num [compute_metrics_hash, cpuBucket, memBucket, uptimeDaysBucket,
      tempBucket, loadBucket, pyInt, c6c, c6d, Prod.ext_iff]
  · norm_num [compute_metrics_hash, cpuBucket, memBucket, uptimeDaysBucket,
      tempBucket, loadBucket, pyInt, c6none]

/-- The spec's reading of the buckets, with true flooring ("CPU% and
memory% floored to the nearest 10; temperature floored to the nearest
5°C; uptime floored to whole days; load average floored to the nearest
0.5"). -/
def specFloorBuckets (d : NodeData) : ℤ × ℤ × ℤ × ℤ × ℚ :=
  (⌊(d.cpu_percent.getD 0) / 10⌋ * 10, ⌊(d.memory_percent.getD 0) / 10⌋ * 10,
   ⌊(d.uptime_seconds.getD 0) / 86400⌋, ⌊(d.cpu_temp_celsius.getD 0) / 5⌋ * 5,
   (⌊(d.load_avg_1m.getD 0) * 2⌋ : ℚ) / 2)

def c6Neg : NodeData := { name := "n", hostname := "h", cpu_temp_celsius := some (-3) }

def c6Pos : NodeData := { name := "n", hostname := "h", cpu_temp_celsius := some 2 }

/-- **C6, counterexample to the claim as stated.** Temperatures −3°C and
2°C land in different floored-to-5 buckets (−5 vs 0), yet the code's
`int()` truncation maps both to bucket 0, so the fingerprints coincide:
the buckets are truncated toward zero, not floored. -/
theorem c6_fingerprint_buckets_cex :
    compute_metrics_hash c6Neg = compute_metrics_hash c6Pos ∧
    specFloorBuckets c6Neg ≠ specFloorBuckets c6Pos := by
  constructor
  · norm_num [compute_metrics_hash, cpuBucket, memBucket, uptimeDaysBucket,
      tempBucket, loadBucket, pyInt, c6Neg, c6Pos]
  · norm_num [specFloorBuckets, c6Neg, c6Pos, Prod.ext_iff]

/-! ## C7: fingerprint-gated quote cache -/

/-- **C7.** For a known node, `get_node_quote` returns the stored text
unchanged, marked cached with an age field, exactly when `force_new` is
false, an entry exists, its age is under the TTL and its stored
fingerprint matches the freshly computed one; in every other case the
generated text is stored under the node's name with the new fingerprint
and the current timestamp and returned marked as a miss. -/
theorem c7_quote_cache (now ttl : ℚ) (force_new : Bool) (node_name : String)
    (node_data : NodeData) (cache : Dict QuoteCacheEntry) (generated : String) :
    ((get_node_quote now ttl force_new node_name node_data cache generated).1.cached
        = true ↔
      (force_new = false ∧ ∃ c : QuoteCacheEntry,
        List.lookup node_name cache = some c ∧ now - c.generated_at < ttl ∧
        c.metrics_hash = compute_metrics_hash node_data)) ∧
    (∀ c : QuoteCacheEntry, List.lookup node_name cache = some c →
       force_new = false → now - c.generated_at < ttl →
       c.metrics_hash = compute_metrics_hash node_data →
       (get_node_quote now ttl force_new node_name node_data cache generated).1.quote
           = c.quote ∧
       (get_node_quote now ttl force_new node_name node_data cache
           generated).1.cache_age_seconds = some (pyInt (now - c.generated_at)) ∧
       (get_node_quote now ttl force_new node_name node_data cache generated).2
           = cache) ∧
    ((get_node_quote now ttl force_new node_name node_data cache generated).1.cached
        = false →
       (get_node_quote now ttl force_new node_name node_data cache generated).1.quote
           = generated ∧
       List.lookup node_name
           (get_node_quote now ttl force_new node_name node_data cache generated).2
         = some ⟨generated, now, compute_metrics_hash node_data⟩) := by
  cases force_new with
  | true =>
    refine ⟨by simp [get_node_quote], ?_, ?_⟩
    · intro c _ hff
      exact absurd hff (by simp)
    · intro _
      exact ⟨rfl, lookup_insertKey_self ..⟩
  | false =>
    cases h : List.lookup node_name cache with
    | none =>
      have hres : get_node_quote now ttl false node_name node_data cache generated
          = (⟨node_name, generated, false, none⟩,
             insertKey node_name ⟨generated, now, compute_metrics_hash node_data⟩
               cache) := by
        unfold get_node_quote
        simp only [h, Bool.false_eq_true, if_false]
      refine ⟨by rw [hres]; simp, ?_, ?_⟩
      · intro c hc
        exact absurd hc (by simp)
      · intro _
        rw [hres]
        exact ⟨rfl, lookup_insertKey_self ..⟩
    | some c0 =>
      by_cases hcond : now - c0.generated_at < ttl ∧
          c0.metrics_hash = compute_metrics_hash node_data
      · have hres : get_node_quote now ttl false node_name node_data cache generated
            = (⟨node_name, c0.quote, true, some (pyInt (now - c0.generated_at))⟩,
               cache) := by
          unfold get_node_quote
          simp only [h, Bool.false_eq_true, if_false, if_pos hcond]
        refine ⟨?_, ?_, ?_⟩
        · rw [hres]
          exact ⟨fun _ => ⟨rfl, c0, rfl, hcond⟩, fun _ => rfl⟩
        · intro c hc _ _ _
          injection hc with hc
          subst hc
          rw [hres]
          exact ⟨rfl, rfl, rfl⟩
        · intro hfalse
          rw [hres] at hfalse
          exact absurd hfalse (by simp)
      · have hres : get_node_quote now ttl false node_name node_data cache generated
            = (⟨node_name, generated, false, none⟩,
               insertKey node_name ⟨generated, now, compute_metrics_hash node_data⟩
                 cache) := by
          unfold get_node_quote
          simp only [h, Bool.false_eq_true, if_false, if_neg hcond]
        refine ⟨?_, ?_, ?_⟩
        · rw [hres]
          constructor
          · intro hfalse
            exact absurd hfalse (by simp)
          · rintro ⟨-, c, hc, h1, h2⟩
            injection hc with hc
            subst hc
            exact absurd ⟨h1, h2⟩ hcond
        · intro c hc _ h1 h2
          injection hc with hc
          subst hc
          exact absurd ⟨h1, h2⟩ hcond
        · intro _
          rw [hres]
          exact ⟨rfl, lookup_insertKey_self ..⟩

def c7Node : NodeData := { name := "michael-1", hostname := "h" }

def c7Entry : QuoteCacheEntry :=
  { quote := "cached!", generated_at := 50, metrics_hash := (0, 0, 0, 0, 0) }

def c7Cache : Dict QuoteCacheEntry := [("michael-1", c7Entry)]

/-- **C7, witness.** An un-forced repeat 50 seconds later with unchanged
(empty) metrics is a hit returning the stored text. -/
theorem c7_quote_cache_witness :
    (get_node_quote 100 86400 false "michael-1" c7Node c7Cache "fresh").1.cached
        = true ∧
    (get_node_quote 100 86400 false "michael-1" c7Node c7Cache "fresh").1.quote
        = "cached!" := by
  have h := c7_quote_cache 100 86400 false "michael-1" c7Node c7Cache "fresh"
  have hm : compute_metrics_hash c7Node = (0, 0, 0, 0, 0) := by
    norm_num [compute_metrics_hash, cpuBucket, memBucket, uptimeDaysBucket,
      tempBucket, loadBucket, pyInt, c7Node]
  have httl : (100:ℚ) - c7Entry.generated_at < 86400 := by norm_num [c7Entry]
  have hfp : c7Entry.metrics_hash = compute_metrics_hash c7Node := by
    rw [hm]
    rfl
  exact ⟨h.1.mpr ⟨rfl, c7Entry, by decide, httl, hfp⟩,
    (h.2.1 c7Entry (by decide) rfl httl hfp).1⟩

/-! ## C8: stats link count -/

/-- **C8 (amended).** The stats endpoint's `total_connections` is the
number of source nodes holding a Link Sample list (the number of keys of
`connections_data`), not the total number of stored samples; the two
agree exactly on states where every source holds a single sample. -/
theorem c8_stats_total_connections (now node_timeout : ℚ) (st : AggState) :
    (get_cluster_stats now node_timeout st).total_connections
      = (st.connections_data.map Prod.fst).length ∧
    ((∀ p ∈ st.connections_data, p.2.length = 1) →
      (get_cluster_stats now node_timeout st).total_connections
        = totalLinkSamples st) := by
  constructor
  · simp [get_cluster_stats]
  · intro h1
    unfold get_cluster_stats totalLinkSamples
    simp only
    have key : ∀ l : Dict (List Connection), (∀ p ∈ l, p.2.length = 1) →
        l.length = (l.map (fun p => p.2.length)).sum := by
      intro l hl
      induction l with
      | nil => rfl
      | cons p t ih =>
        rw [List.length_cons, List.map_cons, List.sum_cons,
          hl p (List.mem_cons_self ..),
          ih (fun q hq => hl q (List.mem_cons_of_mem _ hq))]
        omega
    exact key st.connections_data h1

def c8Conn1 : Connection := { target_node := "b", target_ip := "10.0.0.2", latency_ms := 3 }

def c8Conn2 : Connection := { target_node := "c", target_ip := "10.0.0.3", latency_ms := 4 }

def c8WitState : AggState :=
  { nodes_data := [], connections_data := [("a", [c8Conn1]), ("b", [c8Conn2])]
    quote_cache := [] }

/-- **C8, witness.** With one sample per source, the reported count and
the total sample count agree (as in the repository's stats test). -/
theorem c8_stats_total_connections_witness :
    (get_cluster_stats 0 120 c8WitState).total_connections
      = totalLinkSamples c8WitState :=
  (c8_stats_total_connections 0 120 c8WitState).2 (by decide)

def c8CexState : AggState :=
  { nodes_data := [], connections_data := [("a", [c8Conn1, c8Conn2])]
    quote_cache := [] }

/-- **C8, counterexample to the claim as stated.** One source holding two
Link Samples: the store contains 2 samples but the stats report
`total_connections = 1` — `len(connections_data)` counts source keys,
not samples. -/
theorem c8_stats_total_connections_cex :
    (get_cluster_stats 0 120 c8CexState).total_connections = 1 ∧
    totalLinkSamples c8CexState = 2 := by decide

/-! ## C5: capping -/

theorem connLe_trans : ∀ a b c : DerivedLink,
    connLe a b = true → connLe b c = true → connLe a c = true := by
  intro a b c hab hbc
  simp only [connLe, decide_eq_true_eq] at hab hbc ⊢
  exact le_trans hab hbc

theorem connLe_total : ∀ a b : DerivedLink, (connLe a b || connLe b a) = true := by
  intro a b
  simp only [connLe, Bool.or_eq_true, decide_eq_true_eq]
  exact le_total a.latency_ms b.latency_ms

/-- **C5.** When the deduplicated link list fits the (positive) bound,
capping returns it whole; when it exceeds the bound, capping returns
exactly `bound`-many links obtained by sorting ascending by latency and
truncating, and every returned link's latency is at most every dropped
link's latency. -/
theorem c5_capping (max_connections : ℕ) (l : List DerivedLink)
    (hpos : 0 < max_connections) :
    (l.length ≤ max_connections → capConnections max_connections l = l) ∧
    (max_connections < l.length →
      capConnections max_connections l = (l.mergeSort connLe).take max_connections ∧
      (capConnections max_connections l).length = max_connections ∧
      ∃ rest : List DerivedLink,
        l.Perm (capConnections max_connections l ++ rest) ∧
        ∀ x ∈ capConnections max_connections l, ∀ y ∈ rest,
          x.latency_ms ≤ y.latency_ms) := by
  constructor
  · intro hle
    unfold capConnections
    exact if_neg (fun hcond => absurd hcond.2 (not_lt.mpr hle))
  · intro hgt
    have hcap : capConnections max_connections l
        = (l.mergeSort connLe).take max_connections := by
      unfold capConnections
      exact if_pos ⟨hpos, hgt⟩
    have hperm : (l.mergeSort connLe).Perm l := List.mergeSort_perm l connLe
    have hlen : (l.mergeSort connLe).length = l.length := hperm.length_eq
    have hsorted : List.Pairwise (fun a b => connLe a b = true) (l.mergeSort connLe) :=
      List.sorted_mergeSort connLe_trans connLe_total l
    refine ⟨hcap, ?_, (l.mergeSort connLe).drop max_connections, ?_, ?_⟩
    · rw [hcap, List.length_take, hlen]
      omega
    · rw [hcap, List.take_append_drop]
      exact hperm.symm
    · intro x hx y hy
      rw [hcap] at hx
      rw [← List.take_append_drop max_connections (l.mergeSort connLe)] at hsorted
      have := (List.pairwise_append.mp hsorted).2.2 x hx y hy
      simpa [connLe] using this

def c5a : DerivedLink := { source_node := "a", target_node := "b", latency_ms := 10 }

def c5b : DerivedLink := { source_node := "a", target_node := "c", latency_ms := 5 }

/-- **C5, witness.** Two links against bound 1: one survives; against
bound 500: all survive. -/
theorem c5_capping_witness :
    (capConnections 1 [c5a, c5b]).length = 1 ∧
    capConnections 500 [c5a, c5b] = [c5a, c5b] := by
  have h1 := c5_capping 1 [c5a, c5b] (by norm_num)
  have h500 := c5_capping 500 [c5a, c5b] (by norm_num)
  exact ⟨(h1.2 (by norm_num)).2.1, h500.1 (by norm_num)⟩

/-! ## C4: dedup — string-order and pair-key lemmas -/

theorem listStrLt_asymm : ∀ {x y : List Char}, listStrLt x y = true → listStrLt y x = false
  | [], [], h => by simp [listStrLt] at h
  | [], _ :: _, _ => by simp [listStrLt]
  | _ :: _, [], h => by simp [listStrLt] at h
  | a :: as, b :: bs, h => by
    simp only [listStrLt] at h ⊢
    rcases Nat.lt_trichotomy a.toNat b.toNat with h1 | h1 | h1
    · simp [h1, Nat.lt_asymm h1]
    · simp only [h1, lt_irrefl, if_false] at h ⊢
      exact listStrLt_asymm h
    · simp [h1, Nat.lt_asymm h1] at h

theorem char_eq_of_toNat_eq {a b : Char} (h : a.toNat = b.toNat) : a = b := by
  have := congrArg Char.ofNat h
  rwa [Char.ofNat_toNat, Char.ofNat_toNat] at this

theorem listStrLt_antisymm : ∀ {x y : List Char},
    listStrLt x y = false → listStrLt y x = false → x = y
  | [], [], _, _ => rfl
  | [], _ :: _, h, _ => by simp [listStrLt] at h
  | _ :: _, [], _, h => by simp [listStrLt] at h
  | a :: as, b :: bs, h, h' => by
    simp only [listStrLt] at h h'
    rcases Nat.lt_trichotomy a.toNat b.toNat with h1 | h1 | h1
    · simp [h1] at h
    · simp only [h1, lt_irrefl, if_false] at h h'
      rw [char_eq_of_toNat_eq h1, listStrLt_antisymm h h']
    · simp [h1] at h'

theorem strLtb_asymm {a b : String} (h : strLtb a b = true) : strLtb b a = false :=
  listStrLt_asymm h

theorem strLtb_antisymm {a b : String} (h1 : strLtb a b = false)
    (h2 : strLtb b a = false) : a = b :=
  String.ext_iff.mpr (listStrLt_antisymm h1 h2)

/-- The dedup key is symmetric in its endpoints: `tuple(sorted([a, b]))`
does not depend on the direction of the sample. -/
theorem pairKey_comm (a b : String) : pairKey a b = pairKey b a := by
  unfold pairKey
  cases hab : strLtb a b <;> cases hba : strLtb b a
  · have heq : a = b := strLtb_antisymm hab hba
    subst heq
    simp
  · simp [hab, hba]
  · simp [hab, hba]
  · have := strLtb_asymm hab
    rw [this] at hba
    exact Bool.noConfusion hba

/-- The `deduped` accumulator of the dedup loop. -/
abbrev DedupDict : Type := List ((String × String) × DerivedLink)

theorem pairLookup_update_self {d : DedupDict} {k : String × String}
    (v : DerivedLink) (hs : (List.lookup k d).isSome) :
    List.lookup k (updateVal d k v) = some v := by
  induction d with
  | nil => simp at hs
  | cons p t ih =>
    obtain ⟨a, b⟩ := p
    by_cases ha : a = k
    · subst ha
      simp [updateVal, List.lookup_cons]
    · have h1 : (a == k) = false := by simp [ha]
      have h2 : (k == a) = false := by simp [Ne.symm ha]
      simp only [List.lookup_cons, h2] at hs
      simp only [updateVal, List.map_cons, h1, Bool.false_eq_true, if_false,
        List.lookup_cons, h2]
      exact ih hs

theorem pairLookup_update_ne {d : DedupDict} {k k' : String × String}
    (v : DerivedLink) (h : k' ≠ k) :
    List.lookup k' (updateVal d k v) = List.lookup k' d := by
  induction d with
  | nil => rfl
  | cons p t ih =>
    obtain ⟨a, b⟩ := p
    have hk' : (k' == k) = false := by simp [h]
    by_cases ha : a = k
    · subst ha
      simp only [updateVal, List.map_cons, BEq.refl, if_true, List.lookup_cons, hk']
      exact ih
    · have h1 : (a == k) = false := by simp [ha]
      simp only [updateVal, List.map_cons, h1, Bool.false_eq_true, if_false,
        List.lookup_cons]
      cases hka : k' == a
      · exact ih
      · rfl

theorem pairLookup_append_single {d : DedupDict} {k : String × String}
    (v : DerivedLink) (hn : List.lookup k d = none) :
    List.lookup k (d ++ [(k, v)]) = some v := by
  induction d with
  | nil => simp [List.lookup_cons]
  | cons p t ih =>
    obtain ⟨a, b⟩ := p
    by_cases ha : k = a
    · subst ha
      simp [List.lookup_cons] at hn
    · have h2 : (k == a) = false := by simp [ha]
      simp only [List.lookup_cons, h2] at hn
      simp only [List.cons_append, List.lookup_cons, h2]
      exact ih hn

theorem pairLookup_append_single_ne {d : DedupDict} {k k' : String × String}
    (v : DerivedLink) (h : k' ≠ k) :
    List.lookup k' (d ++ [(k, v)]) = List.lookup k' d := by
  induction d with
  | nil =>
    have hk' : (k' == k) = false := by simp [h]
    simp [List.lookup_cons, hk']
  | cons p t ih =>
    obtain ⟨a, b⟩ := p
    simp only [List.cons_append, List.lookup_cons]
    cases k' == a
    · exact ih
    · rfl

/-- The samples of `l` whose unordered endpoint pair is `k`. -/
def matching (k : String × String) (l : List DerivedLink) : List DerivedLink :=
  l.filter (fun c => dedupKey c == k)

theorem matching_cons_ne {x : DerivedLink} {t : List DerivedLink}
    {k : String × String} (h : dedupKey x ≠ k) :
    matching k (x :: t) = matching k t := by
  simp [matching, List.filter_cons, h]

theorem matching_cons_self {x : DerivedLink} {t : List DerivedLink} :
    matching (dedupKey x) (x :: t) = x :: matching (dedupKey x) t := by
  simp [matching, List.filter_cons]

theorem lookup_dedupStep_ne {d : DedupDict} {c : DerivedLink}
    {k : String × String} (h : k ≠ dedupKey c) :
    List.lookup k (dedupStep d c) = List.lookup k d := by
  unfold dedupStep
  cases hl : List.lookup (dedupKey c) d with
  | none => exact pairLookup_append_single_ne _ h
  | some e =>
    by_cases hlt : c.latency_ms < e.latency_ms
    · simp only [if_pos hlt]
      exact pairLookup_update_ne _ h
    · simp only [if_neg hlt]

theorem lookup_dedupStep_self {d : DedupDict} {c : DerivedLink} :
    List.lookup (dedupKey c) (dedupStep d c)
      = some (match List.lookup (dedupKey c) d with
              | none => c
              | some e => if c.latency_ms < e.latency_ms then c else e) := by
  unfold dedupStep
  cases hl : List.lookup (dedupKey c) d with
  | none => exact pairLookup_append_single _ hl
  | some e =>
    by_cases hlt : c.latency_ms < e.latency_ms
    · simp only [if_pos hlt]
      exact pairLookup_update_self _ (by rw [hl]; rfl)
    · simp only [if_neg hlt]
      exact hl

/-- Characterization of the dedup loop: at each key, the accumulator ends
up holding an element of minimal latency among the initial occupant and
all scanned samples with that key. -/
theorem dedup_foldl_char (l : List DerivedLink) :
    ∀ d : DedupDict, ∀ k : String × String,
      (List.lookup k (l.foldl dedupStep d) = none ↔
        (List.lookup k d = none ∧ matching k l = [])) ∧
      (∀ c, List.lookup k (l.foldl dedupStep d) = some c →
        (c ∈ matching k l ∨ List.lookup k d = some c) ∧
        (∀ e, List.lookup k d = some e → c.latency_ms ≤ e.latency_ms) ∧
        (∀ y ∈ matching k l, c.latency_ms ≤ y.latency_ms)) := by
  induction l with
  | nil =>
    intro d k
    simp only [List.foldl_nil]
    refine ⟨by simp [matching], ?_⟩
    intro c hc
    refine ⟨Or.inr hc, ?_, by simp [matching]⟩
    intro e he
    rw [hc] at he
    injection he with he
    rw [he]
  | cons x t ih =>
    intro d k
    by_cases hk : dedupKey x = k
    · subst hk
      obtain ⟨ih1, ih2⟩ := ih (dedupStep d x) (dedupKey x)
      cases hd : List.lookup (dedupKey x) d with
      | none =>
        have hstep : List.lookup (dedupKey x) (dedupStep d x) = some x := by
          rw [lookup_dedupStep_self, hd]
        constructor
        · rw [List.foldl_cons, ih1, hstep, matching_cons_self]
          simp
        · intro c hc
          rw [List.foldl_cons] at hc
          obtain ⟨m1, m2, m3⟩ := ih2 c hc
          have hcx : c.latency_ms ≤ x.latency_ms := m2 x hstep
          refine ⟨?_, ?_, ?_⟩
          · left
            rw [matching_cons_self]
            rcases m1 with hmem | heq
            · exact List.mem_cons_of_mem _ hmem
            · rw [hstep] at heq
              injection heq with heq
              rw [← heq]
              exact List.mem_cons_self ..
          · intro e he
            exact Option.noConfusion he
          · intro y hy
            rw [matching_cons_self] at hy
            rcases List.mem_cons.mp hy with rfl | hy'
            · exact hcx
            · exact m3 y hy'
      | some e0 =>
        by_cases hlt : x.latency_ms < e0.latency_ms
        · have hstep : List.lookup (dedupKey x) (dedupStep d x) = some x := by
            rw [lookup_dedupStep_self, hd]
            simp [if_pos hlt]
          constructor
          · rw [List.foldl_cons, ih1, hstep, matching_cons_self]
            simp
          · intro c hc
            rw [List.foldl_cons] at hc
            obtain ⟨m1, m2, m3⟩ := ih2 c hc
            have hcx : c.latency_ms ≤ x.latency_ms := m2 x hstep
            refine ⟨?_, ?_, ?_⟩
            · left
              rw [matching_cons_self]
              rcases m1 with hmem | heq
              · exact List.mem_cons_of_mem _ hmem
              · rw [hstep] at heq
                injection heq with heq
                rw [← heq]
                exact List.mem_cons_self ..
            · intro e he
              injection he with he
              rw [← he]
              exact le_trans hcx (le_of_lt hlt)
            · intro y hy
              rw [matching_cons_self] at hy
              rcases List.mem_cons.mp hy with rfl | hy'
              · exact hcx
              · exact m3 y hy'
        · have hstep : List.lookup (dedupKey x) (dedupStep d x) = some e0 := by
            rw [lookup_dedupStep_self, hd]
            simp [if_neg hlt]
          constructor
          · rw [List.foldl_cons, ih1, hstep, matching_cons_self]
            simp
          · intro c hc
            rw [List.foldl_cons] at hc
            obtain ⟨m1, m2, m3⟩ := ih2 c hc
            have hce : c.latency_ms ≤ e0.latency_ms := m2 e0 hstep
            refine ⟨?_, ?_, ?_⟩
            · rcases m1 with hmem | heq
              · left
                rw [matching_cons_self]
                exact List.mem_cons_of_mem _ hmem
              · right
                rw [hstep] at heq
                exact heq
            · intro e he
              injection he with he
              rw [← he]
              exact hce
            · intro y hy
              rw [matching_cons_self] at hy
              rcases List.mem_cons.mp hy with rfl | hy'
              · exact le_trans hce (le_of_not_lt hlt)
              · exact m3 y hy'
    · obtain ⟨ih1, ih2⟩ := ih (dedupStep d x) k
      have hstep : List.lookup k (dedupStep d x) = List.lookup k d :=
        lookup_dedupStep_ne (Ne.symm hk)
      have hm : matching k (x :: t) = matching k t := matching_cons_ne hk
      constructor
      · rw [List.foldl_cons, ih1, hstep, hm]
      · intro c hc
        rw [List.foldl_cons] at hc
        obtain ⟨m1, m2, m3⟩ := ih2 c hc
        rw [hstep] at m1 m2
        rw [hm]
        exact ⟨m1, m2, m3⟩

theorem updateVal_keys (d : DedupDict) (k : String × String) (v : DerivedLink) :
    (updateVal d k v).map Prod.fst = d.map Prod.fst := by
  unfold updateVal
  rw [List.map_map]
  apply List.map_congr_left
  intro p _
  by_cases h : p.1 = k
  · simp [h]
  · simp [h]

theorem pairLookup_none_not_mem_keys {d : DedupDict} {k : String × String}
    (h : List.lookup k d = none) : k ∉ d.map Prod.fst := by
  rw [List.lookup_eq_none_iff] at h
  intro hmem
  obtain ⟨p, hp, hpk⟩ := List.mem_map.mp hmem
  have := h p hp
  rw [hpk] at this
  simp at this

/-- Invariant of the dedup accumulator: every entry is keyed by its
value's unordered pair, and keys are distinct. -/
theorem dedupFold_keys (l : List DerivedLink) :
    ∀ d : DedupDict, (∀ p ∈ d, p.1 = dedupKey p.2) → (d.map Prod.fst).Nodup →
      (∀ p ∈ l.foldl dedupStep d, p.1 = dedupKey p.2) ∧
      ((l.foldl dedupStep d).map Prod.fst).Nodup := by
  induction l with
  | nil => exact fun d h1 h2 => ⟨h1, h2⟩
  | cons x t ih =>
    intro d h1 h2
    rw [List.foldl_cons]
    apply ih
    · unfold dedupStep
      cases hd : List.lookup (dedupKey x) d with
      | none =>
        intro p hp
        rcases List.mem_append.mp hp with h | h
        · exact h1 p h
        · simp only [List.mem_singleton] at h
          rw [h]
      | some e =>
        by_cases hlt : x.latency_ms < e.latency_ms
        · simp only [if_pos hlt]
          intro p hp
          unfold updateVal at hp
          obtain ⟨q, hq, hpq⟩ := List.mem_map.mp hp
          by_cases hqk : q.1 = dedupKey x
          · rw [← hpq]
            simp [hqk]
          · rw [← hpq]
            simp only [hqk, beq_iff_eq, if_false, if_neg hqk]
            exact h1 q hq
        · simp only [if_neg hlt]
          exact h1
    · unfold dedupStep
      cases hd : List.lookup (dedupKey x) d with
      | none =>
        rw [List.map_append]
        rw [List.nodup_append]
        refine ⟨h2, List.nodup_singleton _, ?_⟩
        intro a ha hb
        simp only [List.map_cons, List.map_nil, List.mem_singleton] at hb
        rw [hb] at ha
        exact pairLookup_none_not_mem_keys hd ha
      | some e =>
        by_cases hlt : x.latency_ms < e.latency_ms
        · simp only [if_pos hlt]
          rw [updateVal_keys]
          exact h2
        · simp only [if_neg hlt]
          exact h2

/-- **C4.** With dedup enabled, the connection view keys links by the
unordered endpoint pair (`pairKey` is symmetric, and distinct output
links have distinct keys); for each key present in the input the
retained link is one of the samples with that key, its latency is the
minimum latency among all samples with that key (either direction), and
the per-key retained latency is invariant under reordering of the
scanned samples. -/
theorem c4_dedup_lowest_latency (l₁ l₂ : List DerivedLink) (k : String × String)
    (hperm : l₁.Perm l₂) :
    (∀ a b : String, pairKey a b = pairKey b a) ∧
    (List.lookup k (dedupFold l₁) = none ↔ matching k l₁ = []) ∧
    (∀ c, List.lookup k (dedupFold l₁) = some c →
       c ∈ matching k l₁ ∧ ∀ y ∈ matching k l₁, c.latency_ms ≤ y.latency_ms) ∧
    ((List.lookup k (dedupFold l₁)).map DerivedLink.latency_ms
       = (List.lookup k (dedupFold l₂)).map DerivedLink.latency_ms) ∧
    List.Pairwise (fun a b => dedupKey a ≠ dedupKey b) (dedupConnections l₁) := by
  have hch₁ := dedup_foldl_char l₁ [] k
  have hch₂ := dedup_foldl_char l₂ [] k
  have hmatchperm : (matching k l₁).Perm (matching k l₂) := hperm.filter _
  have hnone₁ : List.lookup k (dedupFold l₁) = none ↔ matching k l₁ = [] := by
    rw [dedupFold, hch₁.1]
    simp
  have hsome₁ : ∀ c, List.lookup k (dedupFold l₁) = some c →
      c ∈ matching k l₁ ∧ ∀ y ∈ matching k l₁, c.latency_ms ≤ y.latency_ms := by
    intro c hc
    obtain ⟨m1, _, m3⟩ := hch₁.2 c hc
    rcases m1 with hmem | habs
    · exact ⟨hmem, m3⟩
    · simp at habs
  have hnone₂ : List.lookup k (dedupFold l₂) = none ↔ matching k l₂ = [] := by
    rw [dedupFold, hch₂.1]
    simp
  have hsome₂ : ∀ c, List.lookup k (dedupFold l₂) = some c →
      c ∈ matching k l₂ ∧ ∀ y ∈ matching k l₂, c.latency_ms ≤ y.latency_ms := by
    intro c hc
    obtain ⟨m1, _, m3⟩ := hch₂.2 c hc
    rcases m1 with hmem | habs
    · exact ⟨hmem, m3⟩
    · simp at habs
  refine ⟨pairKey_comm, hnone₁, hsome₁, ?_, ?_⟩
  · cases hl₁ : List.lookup k (dedupFold l₁) with
    | none =>
      have hm₂ : matching k l₂ = [] := by
        have := hnone₁.mp hl₁
        rw [this] at hmatchperm
        exact hmatchperm.symm.eq_nil
      rw [hnone₂.mpr hm₂]
    | some c₁ =>
      cases hl₂ : List.lookup k (dedupFold l₂) with
      | none =>
        have hm₂ := hnone₂.mp hl₂
        obtain ⟨hmem₁, -⟩ := hsome₁ c₁ hl₁
        have : c₁ ∈ matching k l₂ := hmatchperm.mem_iff.mp hmem₁
        rw [hm₂] at this
        simp at this
      | some c₂ =>
        obtain ⟨hmem₁, hmin₁⟩ := hsome₁ c₁ hl₁
        obtain ⟨hmem₂, hmin₂⟩ := hsome₂ c₂ hl₂
        have h12 : c₁.latency_ms ≤ c₂.latency_ms :=
          hmin₁ c₂ (hmatchperm.mem_iff.mpr hmem₂)
        have h21 : c₂.latency_ms ≤ c₁.latency_ms :=
          hmin₂ c₁ (hmatchperm.mem_iff.mp hmem₁)
        simp [le_antisymm h12 h21]
  · obtain ⟨hkeys, hnodup⟩ := dedupFold_keys l₁ [] (by simp) (by simp)
    have hmapeq : (l₁.foldl dedupStep []).map Prod.fst
        = (l₁.foldl dedupStep []).map (fun p => dedupKey p.2) :=
      List.map_congr_left hkeys
    rw [hmapeq] at hnodup
    have hpw : List.Pairwise (fun p q : (String × String) × DerivedLink =>
        dedupKey p.2 ≠ dedupKey q.2) (l₁.foldl dedupStep []) :=
      List.pairwise_map.mp hnodup
    exact List.pairwise_map.mpr hpw

def c4ab : DerivedLink := { source_node := "A", target_node := "B", latency_ms := 10 }

def c4ba : DerivedLink := { source_node := "B", target_node := "A", latency_ms := 15 }

/-- **C4, witness.** Samples A→B at latency 10 and B→A at latency 15
collapse, in either ingestion order, to the single edge A→B with
latency 10. -/
theorem c4_dedup_lowest_latency_witness :
    pairKey "A" "B" = pairKey "B" "A" ∧
    (List.lookup (pairKey "A" "B") (dedupFold [c4ab, c4ba])).map
        DerivedLink.latency_ms
      = (List.lookup (pairKey "A" "B") (dedupFold [c4ba, c4ab])).map
        DerivedLink.latency_ms ∧
    dedupConnections [c4ab, c4ba] = [c4ab] ∧
    dedupConnections [c4ba, c4ab] = [c4ab] := by
  have h := c4_dedup_lowest_latency [c4ab, c4ba] [c4ba, c4ab] (pairKey "A" "B")
    (by decide)
  exact ⟨h.1 "A" "B", h.2.2.2.1, by decide, by decide⟩

/-! ## C3: eviction -/

/-- Full disappearance of node `n` from the store: report, own sample
list, cache entry, and every sample targeting it. -/
def removedFrom (n : String) (st : AggState) : Prop :=
  List.lookup n st.nodes_data = none ∧
  List.lookup n st.connections_data = none ∧
  List.lookup n st.quote_cache = none ∧
  ∀ p ∈ st.connections_data, ∀ c ∈ p.2, c.target_node ≠ n

theorem mem_dropTargets {name : String} {conns : Dict (List Connection)}
    {p : String × List Connection} (hp : p ∈ dropTargets name conns) :
    ∃ q ∈ conns, p.1 = q.1 ∧
      p.2 = q.2.filter (fun c => !(c.target_node == name)) ∧ p.2 ≠ [] := by
  unfold dropTargets at hp
  obtain ⟨q, hq, hfq⟩ := List.mem_filterMap.mp hp
  by_cases he : (q.2.filter (fun c => !(c.target_node == name))).isEmpty
  · rw [if_pos he] at hfq
    exact Option.noConfusion hfq
  · rw [if_neg he] at hfq
    injection hfq with hfq
    have hne : q.2.filter (fun c => !(c.target_node == name)) ≠ [] :=
      fun hn => he (by rw [hn]; rfl)
    refine ⟨q, hq, ?_, ?_, ?_⟩
    · rw [← hfq]
    · rw [← hfq]
    · rw [← hfq]
      exact hne

theorem lookup_dropTargets_none {name n : String} {conns : Dict (List Connection)}
    (h : List.lookup n conns = none) :
    List.lookup n (dropTargets name conns) = none := by
  rw [List.lookup_eq_none_iff] at h ⊢
  intro p hp
  obtain ⟨q, hq, hpq, -, -⟩ := mem_dropTargets hp
  rw [hpq]
  exact h q hq

theorem evictOne_removed (st : AggState) (n : String) :
    removedFrom n (evictOne st n) := by
  refine ⟨lookup_eraseKey_self .., lookup_dropTargets_none (lookup_eraseKey_self ..),
    lookup_eraseKey_self .., ?_⟩
  intro p hp c hc
  obtain ⟨q, hq, -, hfilter, -⟩ := mem_dropTargets hp
  rw [hfilter] at hc
  have := List.of_mem_filter hc
  simpa using this

theorem evictOne_preserves_removed {n : String} {st : AggState} (m : String)
    (h : removedFrom n st) : removedFrom n (evictOne st m) := by
  obtain ⟨h1, h2, h3, h4⟩ := h
  refine ⟨lookup_eraseKey_of_none m h1,
    lookup_dropTargets_none (lookup_eraseKey_of_none m h2),
    lookup_eraseKey_of_none m h3, ?_⟩
  intro p hp c hc
  obtain ⟨q, hq, -, hfilter, -⟩ := mem_dropTargets hp
  have hq' : q ∈ st.connections_data := List.mem_of_mem_filter hq
  rw [hfilter] at hc
  exact h4 q hq' c (List.mem_of_mem_filter hc)

theorem foldl_evictOne_preserves {n : String} (L : List String) :
    ∀ st : AggState, removedFrom n st → removedFrom n (L.foldl evictOne st) := by
  induction L with
  | nil => exact fun _ h => h
  | cons m L ih =>
    intro st h
    rw [List.foldl_cons]
    exact ih _ (evictOne_preserves_removed m h)

theorem foldl_evictOne_removed {n : String} : ∀ L : List String, n ∈ L →
    ∀ st : AggState, removedFrom n (L.foldl evictOne st)
  | [], hn, _ => absurd hn (List.not_mem_nil _)
  | m :: L, hn, st => by
    rw [List.foldl_cons]
    by_cases hm : n = m
    · subst hm
      exact foldl_evictOne_preserves L _ (evictOne_removed st n)
    · have hL : n ∈ L := by
        rcases List.mem_cons.mp hn with h | h
        · exact absurd h hm
        · exact h
      exact foldl_evictOne_removed L hL _

theorem evictOne_conns_nonempty (st : AggState) (m : String) :
    ∀ p ∈ (evictOne st m).connections_data, p.2 ≠ [] := by
  intro p hp
  obtain ⟨-, -, -, -, hne⟩ := mem_dropTargets hp
  exact hne

theorem foldl_evictOne_conns_nonempty (L : List String) :
    ∀ st : AggState, (∀ p ∈ st.connections_data, p.2 ≠ []) →
      ∀ p ∈ (L.foldl evictOne st).connections_data, p.2 ≠ [] := by
  induction L with
  | nil => exact fun _ h => h
  | cons m L ih =>
    intro st _
    rw [List.foldl_cons]
    exact ih _ (evictOne_conns_nonempty st m)

theorem lookup_foldl_evictOne_not_mem {n : String} : ∀ L : List String, n ∉ L →
    ∀ st : AggState,
      List.lookup n (L.foldl evictOne st).nodes_data = List.lookup n st.nodes_data
  | [], _, _ => rfl
  | m :: L, hn, st => by
    rw [List.foldl_cons,
      lookup_foldl_evictOne_not_mem L (fun h => hn (List.mem_cons_of_mem _ h)) _]
    exact lookup_eraseKey_ne _ (fun h => hn (h ▸ List.mem_cons_self ..))

theorem mem_staleNames_of_lookup {nodes : Dict StoredNode} {n : String}
    {rec : StoredNode} (h : List.lookup n nodes = some rec) {cutoff : ℚ}
    (hst : rec.received_at < cutoff) : n ∈ staleNames cutoff nodes := by
  unfold staleNames
  exact List.mem_map.mpr
    ⟨(n, rec), List.mem_filter.mpr ⟨lookup_some_mem h, by simpa using hst⟩, rfl⟩

theorem not_mem_staleNames {nodes : Dict StoredNode} {n : String}
    {rec : StoredNode} (hnodup : keysNodup nodes)
    (h : List.lookup n nodes = some rec) {cutoff : ℚ}
    (hfresh : ¬ rec.received_at < cutoff) : n ∉ staleNames cutoff nodes := by
  unfold staleNames
  intro hmem
  obtain ⟨⟨a, b⟩, hp, hpn⟩ := List.mem_map.mp hmem
  simp only at hpn
  subst hpn
  obtain ⟨hpmem, hpstale⟩ := List.mem_filter.mp hp
  have hlook := lookup_of_mem_nodup hnodup hpmem
  rw [h] at hlook
  injection hlook with hlook
  rw [hlook] at hfresh
  simp at hpstale
  exact hfresh hpstale

/-- **C3.** After the eviction pass, every node whose age strictly
exceeds `node_timeout + grace` is fully removed — report gone, own Link
Sample list gone, Status Cache entry gone, no remaining source holds a
sample targeting it — every remaining source's list is non-empty (sources
emptied by the scan are dropped), and every node within the cutoff keeps
its report untouched. -/
theorem c3_eviction (now node_timeout grace : ℚ) (st : AggState)
    (hnodup : keysNodup st.nodes_data)
    (hne : ∀ p ∈ st.connections_data, p.2 ≠ ([] : List Connection)) :
    (∀ n : String, ∀ rec : StoredNode,
      List.lookup n st.nodes_data = some rec →
      node_timeout + grace < now - rec.received_at →
        List.lookup n (cleanup_stale_nodes now node_timeout grace st).nodes_data
            = none ∧
        List.lookup n
            (cleanup_stale_nodes now node_timeout grace st).connections_data = none ∧
        List.lookup n (cleanup_stale_nodes now node_timeout grace st).quote_cache
            = none ∧
        ∀ p ∈ (cleanup_stale_nodes now node_timeout grace st).connections_data,
          ∀ c ∈ p.2, c.target_node ≠ n) ∧
    (∀ p ∈ (cleanup_stale_nodes now node_timeout grace st).connections_data,
      p.2 ≠ []) ∧
    (∀ n : String, ∀ rec : StoredNode,
      List.lookup n st.nodes_data = some rec →
      now - rec.received_at ≤ node_timeout + grace →
        List.lookup n (cleanup_stale_nodes now node_timeout grace st).nodes_data
          = some rec) := by
  refine ⟨?_, ?_, ?_⟩
  · intro n rec hlook hstale
    have hcut : rec.received_at < now - (node_timeout + grace) := by linarith
    exact foldl_evictOne_removed _ (mem_staleNames_of_lookup hlook hcut) st
  · exact foldl_evictOne_conns_nonempty _ st hne
  · intro n rec hlook hfresh
    have hcut : ¬ rec.received_at < now - (node_timeout + grace) :=
      not_lt.mpr (by linarith)
    have heq := lookup_foldl_evictOne_not_mem _
      (not_mem_staleNames hnodup hlook hcut) st
    rw [show cleanup_stale_nodes now node_timeout grace st
        = (staleNames (now - (node_timeout + grace)) st.nodes_data).foldl evictOne st
      from rfl, heq, hlook]

def c3Stale : StoredNode := { data := { name := "old", hostname := "h" }, received_at := 0 }

def c3Fresh : StoredNode := { data := { name := "new", hostname := "h" }, received_at := 95 }

def c3State : AggState :=
  { nodes_data := [("old", c3Stale), ("new", c3Fresh)]
    connections_data :=
      [("old", [{ target_node := "x", target_ip := "2.2.2.2", latency_ms := 2 }]),
       ("new", [{ target_node := "old", target_ip := "1.1.1.1", latency_ms := 1 },
                { target_node := "x", target_ip := "2.2.2.2", latency_ms := 2 }])]
    quote_cache := [("old", { quote := "q", generated_at := 0
                              metrics_hash := (0, 0, 0, 0, 0) })] }

/-- **C3, witness.** With `now = 100`, `timeout = 2`, `grace = 3`: the
node last seen at 0 (age 100 > 5) is gone from all three maps and from
`"new"`'s sample list, while the node last seen at 95 (age 5 ≤ 5) keeps
its report. -/
theorem c3_eviction_witness :
    List.lookup "old" (cleanup_stale_nodes 100 2 3 c3State).nodes_data = none ∧
    List.lookup "old" (cleanup_stale_nodes 100 2 3 c3State).connections_data
        = none ∧
    List.lookup "old" (cleanup_stale_nodes 100 2 3 c3State).quote_cache = none ∧
    (∀ p ∈ (cleanup_stale_nodes 100 2 3 c3State).connections_data,
      ∀ c ∈ p.2, c.target_node ≠ "old") ∧
    List.lookup "new" (cleanup_stale_nodes 100 2 3 c3State).nodes_data
        = some c3Fresh := by
  have h := c3_eviction 100 2 3 c3State
    (by show (c3State.nodes_data.map Prod.fst).Nodup; decide) (by decide)
  obtain ⟨h1, h2, h3, h4⟩ := h.1 "old" c3Stale (by decide) (by norm_num [c3Stale])
  exact ⟨h1, h2, h3, h4, h.2.2 "new" c3Fresh (by decide) (by norm_num [c3Fresh])⟩

end HomelabMap
